import Mathlib

/-!
Verification development for the Urdu LLM processor (`llm.py`,
class `UrduLLMProcessor`).  Python strings are modelled as `List Char`
(a Python `str` is a sequence of code points).  The external
capabilities (HuggingFace tokenizer, classifier and summarizer
pipelines) are modelled as function parameters: the token counter is a
function `PyStr → Nat` (the length of `tokenizer.tokenize(text)`), and
the summarizer / classifier are functions returning `Except` (an
`Except.error` models the Python call raising an exception).
-/

/-- Model of a Python `str`: a sequence of code points. -/
abbrev PyStr := List Char

/-- Python's regex class `\s` for `str` patterns (whitespace characters):
the six ASCII whitespace characters plus the Unicode whitespace code
points recognised by CPython. -/
def isPySpace (c : Char) : Bool :=
  c == ' ' || c == '\t' || c == '\n' || c == '\r' || c == '\x0b' || c == '\x0c' ||
  c == '\x1c' || c == '\x1d' || c == '\x1e' || c == '\x1f' || c == '\x85' || c == '\xa0' ||
  c == '\u1680' || ('\u2000' ≤ c && c ≤ '\u200A') || c == '\u2028' || c == '\u2029' ||
  c == '\u202F' || c == '\u205F' || c == '\u3000'

/-- Python's regex class `\w` (word characters), ASCII fragment:
letters, digits and underscore.  (The Unicode extension of `\w` is not
needed for any claim settled below.) -/
def isPyWord (c : Char) : Bool :=
  c.isAlphanum || c == '_'

/-- Split a character list at its last `'\n'`: returns `some (a, b)`
with `l = a ++ '\n' :: b` and no `'\n'` in `b`, or `none` when the list
has no newline.  This realises the greedy backtracking of `\s*` in the
pattern `\n\s*\n`: the separator extends to the last newline of the
whitespace run. -/
def splitAtLastNewline : List Char → Option (List Char × List Char)
  | [] => none
  | c :: cs =>
    match splitAtLastNewline cs with
    | some (a, b) => some (c :: a, b)
    | none => if c = '\n' then some ([], cs) else none

/-- Fuelled scanner for `re.split(r'\n\s*\n', text)` (line 119 of
`llm.py`).  A separator match starts at a `'\n'` whose following
maximal whitespace run contains another `'\n'`; the greedy `\s*`
extends the match to the last newline of that run.  Returns the list
of paragraphs and the list of removed separators.  The fuel is an
upper bound on the number of characters still to scan (the caller
passes the length of the text, which always suffices, since every
step consumes at least one character). -/
def paraGoF : Nat → List Char → List Char → List (List Char) × List (List Char)
  | 0, acc, cs => ([acc.reverse ++ cs], [])
  | _ + 1, acc, [] => ([acc.reverse], [])
  | fuel + 1, acc, c :: rest =>
    if c = '\n' then
      match splitAtLastNewline (rest.takeWhile isPySpace) with
      | some (a, b) =>
        let r := paraGoF fuel [] (b ++ rest.dropWhile isPySpace)
        (acc.reverse :: r.1, ('\n' :: (a ++ ['\n'])) :: r.2)
      | none => paraGoF fuel (c :: acc) rest
    else paraGoF fuel (c :: acc) rest

/-- `re.split(r'\n\s*\n', text)` together with the matched separators. -/
def splitParagraphsSeps (t : PyStr) : List PyStr × List PyStr :=
  paraGoF t.length [] t

/-- `re.split(r'\n\s*\n', text)` — the paragraph list (line 119 of `llm.py`). -/
def splitParagraphs (t : PyStr) : List PyStr :=
  (splitParagraphsSeps t).1

/-- The sentence-boundary condition of the pattern
`(?<!\w\.\w.)(?<![A-Z][a-z]\.)(?<=\.|\?|\!)\s` (lines 130 and 158 of
`llm.py`): the scanned character `c` is a `\s`, the preceding character
is `.`, `?` or `!`, and neither negative lookbehind window matches.
`prev` holds the already-scanned characters, most recent first (only
the four most recent are ever consulted); a lookbehind that reaches
before the start of the string cannot match, so the corresponding
negative lookbehind is satisfied. -/
def sentBoundary (prev : List Char) (c : Char) : Bool :=
  isPySpace c &&
  (match prev with
   | p1 :: _ => p1 == '.' || p1 == '?' || p1 == '!'
   | [] => false) &&
  !(match prev with
    | _ :: p2 :: p3 :: p4 :: _ => isPyWord p4 && p3 == '.' && isPyWord p2
    | _ => false) &&
  !(match prev with
    | p1 :: p2 :: p3 :: _ => p3.isUpper && p2.isLower && p1 == '.'
    | _ => false)

/-- Scanner for the sentence split: walks the characters keeping the
four most recently scanned characters (most recent first) for the
lookbehinds; at each boundary the single matched `\s` character is
removed as a separator.  Returns sentences and separators. -/
def sentGo (prev : List Char) (acc : List Char) : List Char → List (List Char) × List (List Char)
  | [] => ([acc.reverse], [])
  | c :: rest =>
    if sentBoundary prev c then
      let r := sentGo ((c :: prev).take 4) [] rest
      (acc.reverse :: r.1, [c] :: r.2)
    else
      sentGo ((c :: prev).take 4) (c :: acc) rest

/-- `re.split` on the sentence pattern, with the matched separators. -/
def splitSentencesSeps (t : PyStr) : List PyStr × List PyStr :=
  sentGo [] [] t

/-- `re.split(r'(?<!\w\.\w.)(?<![A-Z][a-z]\.)(?<=\.|\?|\!)\s', text)`
(lines 130 and 158 of `llm.py`). -/
def splitSentences (t : PyStr) : List PyStr :=
  (splitSentencesSeps t).1

/-- Interleave units with separators: the inverse of `re.split`.
`joinWithSeps [u1, u2, u3] [s1, s2] = u1 ++ s1 ++ u2 ++ s2 ++ u3`. -/
def joinWithSeps : List PyStr → List PyStr → PyStr
  | [], _ => []
  | u :: us, s :: ss => u ++ s ++ joinWithSeps us ss
  | u :: us, [] => u ++ joinWithSeps us []

/-- Python `' '.join(parts)` (lines 137, 146, 154, 169, 177, 243 of `llm.py`). -/
def joinSp : List PyStr → PyStr
  | [] => []
  | [u] => u
  | u :: us => u ++ ' ' :: joinSp us

/-- Concatenation of a list of lists (used to state partition facts). -/
def concatAll : List (List α) → List α
  | [] => []
  | l :: ls => l ++ concatAll ls

/-! ## Configuration constants (`UrduLLMProcessor.__init__`, lines 33–38) -/

def MAX_CLASSIFICATION_TOKENS : Nat := 500
def MAX_SUMMARIZATION_TOKENS : Nat := 768
def MIN_SUMMARY_LENGTH : Int := 25
def MAX_SUMMARY_LENGTH : Int := 120
def MIN_CHUNK_LENGTH : Nat := 150

/-! ## Greedy chunk packer (`_chunk_text_for_summarization`, lines 117–179) -/

/-- The mutable loop state of `_chunk_text_for_summarization`:
`chunks` (kept here as the lists of accumulated units; the source
appends `' '.join(current_chunk)` at emission, recovered below by
mapping `joinSp`), `current_chunk` and `current_length`. -/
structure PackState where
  chunks : List (List PyStr)
  cur : List PyStr
  curLen : Nat
deriving DecidableEq

/-- One iteration of the accumulation loop on a single unit (the
sentence-loop body, lines 132–142, which is also the body of the
non-overflowing-paragraph branch, lines 144–151):
if `current_length + unit_length > MAX_SUMMARIZATION_TOKENS`, flush the
accumulator (when non-empty) and restart it with the unit, else append
the unit and add its token count. -/
def placeUnit (tok : PyStr → Nat) (st : PackState) (u : PyStr) : PackState :=
  if st.curLen + tok u > MAX_SUMMARIZATION_TOKENS then
    { chunks := st.chunks ++ (if st.cur = [] then [] else [st.cur]),
      cur := [u], curLen := tok u }
  else
    { chunks := st.chunks, cur := st.cur ++ [u], curLen := st.curLen + tok u }

/-- The paragraph-loop body (lines 125–151): a paragraph whose own
token count exceeds `MAX_SUMMARIZATION_TOKENS` is re-split into
sentences, which are fed one by one to the same accumulator; otherwise
the paragraph itself is fed to the accumulator.  Note that the source
performs the re-split whenever the paragraph overflows, with no test
on the accumulator. -/
def placePara (tok : PyStr → Nat) (st : PackState) (p : PyStr) : PackState :=
  if tok p > MAX_SUMMARIZATION_TOKENS then
    (splitSentences p).foldl (placeUnit tok) st
  else
    placeUnit tok st p

/-- Final flush (lines 153–154 and 176–177): a non-empty accumulator
is emitted as a last chunk. -/
def flushChunks (st : PackState) : List (List PyStr) :=
  st.chunks ++ (if st.cur = [] then [] else [st.cur])

/-- The initial loop state (lines 121–123 and 159–161). -/
def initPack : PackState := ⟨[], [], 0⟩

/-- The chunks of `_chunk_text_for_summarization`, as lists of the
structural units accumulated into each chunk: the paragraph path when
the text splits into more than one paragraph (lines 120–156), else the
sentence path over the whole text (lines 158–177). -/
def chunkUnits (tok : PyStr → Nat) (text : PyStr) : List (List PyStr) :=
  let paragraphs := splitParagraphs text
  if paragraphs.length > 1 then
    flushChunks (paragraphs.foldl (placePara tok) initPack)
  else
    flushChunks ((splitSentences text).foldl (placeUnit tok) initPack)

/-- `_chunk_text_for_summarization` (lines 117–179): each emitted chunk
is the space-join of its accumulated units. -/
def chunk_text_for_summarization (tok : PyStr → Nat) (text : PyStr) : List PyStr :=
  (chunkUnits tok text).map joinSp

/-- The structural units produced by the splitter for a given text:
paragraphs, where an overflowing paragraph is replaced by its
sentences; for a single-paragraph text, the sentences of the whole
text. -/
def structuralUnits (tok : PyStr → Nat) (text : PyStr) : List PyStr :=
  let paragraphs := splitParagraphs text
  if paragraphs.length > 1 then
    concatAll (paragraphs.map (fun p =>
      if tok p > MAX_SUMMARIZATION_TOKENS then splitSentences p else [p]))
  else
    splitSentences text

/-- Sum of the token counts of the units of a chunk. -/
def sumTok (tok : PyStr → Nat) (c : List PyStr) : Nat :=
  (c.map tok).sum

/-! ## Safe summarizer wrapper (`_safe_summarize`, lines 181–206) -/

/-- The external summarization capability:
`summarize(text, max_length, min_length)`, returning the produced
summary text or raising (modelled by `Except.error`). -/
abbrev Summarizer := PyStr → Int → Int → Except PyStr PyStr

/-- `actual_max = min(max_length, token_count)` (line 189). -/
def clampedMax (maxLength tokenCount : Int) : Int :=
  min maxLength tokenCount

/-- `actual_min = min(min_length, actual_max - 1)` (line 190). -/
def clampedMin (minLength maxLength tokenCount : Int) : Int :=
  min minLength (clampedMax maxLength tokenCount - 1)

/-- `max(10, actual_max // 2)` (line 193; Python `//` is floor
division, hence `Int.fdiv`). -/
def resetMin (maxLength tokenCount : Int) : Int :=
  max 10 ((clampedMax maxLength tokenCount).fdiv 2)

/-- The `actual_min` in force after lines 190–193: the clamped value,
replaced by the reset value when `actual_min >= actual_max`. -/
def finalActualMin (minLength maxLength tokenCount : Int) : Int :=
  if clampedMin minLength maxLength tokenCount ≥ clampedMax maxLength tokenCount then
    resetMin maxLength tokenCount
  else
    clampedMin minLength maxLength tokenCount

/-- A record of one invocation of the external summarizer (used to
state how many summarization calls a path performs and with which
arguments). -/
structure SummCall where
  callText : PyStr
  callMax : Int
  callMin : Int
deriving DecidableEq

/-- `_safe_summarize(text, max_length, min_length)` (lines 181–206):
returns `None` when the token count is below `MIN_CHUNK_LENGTH` (no
summarizer call), otherwise invokes the summarizer with the clamped
bounds; an exception from the capability is caught and yields `None`.
The second component records the summarizer invocations made. -/
def safe_summarize (tok : PyStr → Nat) (summ : Summarizer) (text : PyStr)
    (maxLength minLength : Int) : Option PyStr × List SummCall :=
  let tokenCount := tok text
  if tokenCount < MIN_CHUNK_LENGTH then (none, [])
  else
    let aMax := clampedMax maxLength (tokenCount : Int)
    let aMin := finalActualMin minLength maxLength (tokenCount : Int)
    match summ text aMax aMin with
    | Except.ok s => (some s, [⟨text, aMax, aMin⟩])
    | Except.error _ => (none, [⟨text, aMax, aMin⟩])

/-! ## Summarization orchestrator (`summarize_text`, lines 208–243) -/

/-- `self.MAX_SUMMARY_LENGTH // len(valid_chunks)` (line 234). -/
def chunkMaxLength (n : Nat) : Int := Int.ofNat (120 / n)

/-- `max(15, self.MIN_SUMMARY_LENGTH // len(valid_chunks))` (line 235). -/
def chunkMinLength (n : Nat) : Int := max 15 (Int.ofNat (25 / n))

/-- The placeholder for a document whose chunks are all below the
viability threshold (line 228). -/
def NO_SUMMARY_SHORT : PyStr := "خلاصہ دستیاب نہیں (متن بہت چھوٹا ہے)".data

/-- The placeholder for a document with viable chunks but no produced
chunk summary (line 241). -/
def NO_SUMMARY : PyStr := "خلاصہ دستیاب نہیں".data

/-- `valid_chunks` (lines 224–225): the chunks whose token count is at
least `MIN_CHUNK_LENGTH`. -/
def validChunks (tok : PyStr → Nat) (text : PyStr) : List PyStr :=
  (chunk_text_for_summarization tok text).filter
    (fun c => decide (MIN_CHUNK_LENGTH ≤ tok c))

/-- The body of the per-chunk loop (lines 231–238): summarize the
chunk with the divided budgets; a truthy (non-`None`, non-empty)
result is appended to the collected summaries. -/
def summStep (tok : PyStr → Nat) (summ : Summarizer) (n : Nat)
    (acc : List PyStr × List SummCall) (c : PyStr) : List PyStr × List SummCall :=
  let r := safe_summarize tok summ c (chunkMaxLength n) (chunkMinLength n)
  match r.1 with
  | some s => if s = [] then (acc.1, acc.2 ++ r.2) else (acc.1 ++ [s], acc.2 ++ r.2)
  | none => (acc.1, acc.2 ++ r.2)

/-- The per-chunk loop over the valid chunks. -/
def chunkLoop (tok : PyStr → Nat) (summ : Summarizer) (n : Nat)
    (l : List PyStr) : List PyStr × List SummCall :=
  l.foldl (summStep tok summ n) ([], [])

/-- The chunked path of `summarize_text` (lines 223–243): chunk,
filter for viability, return the too-short placeholder when nothing is
viable, otherwise summarize each valid chunk with the divided budgets
and join the collected summaries, or return the other placeholder when
none was collected. -/
def chunkedPath (tok : PyStr → Nat) (summ : Summarizer) (text : PyStr) :
    PyStr × List SummCall :=
  let valid := validChunks tok text
  if valid = [] then (NO_SUMMARY_SHORT, [])
  else
    let r := chunkLoop tok summ valid.length valid
    if r.1 = [] then (NO_SUMMARY, r.2)
    else (joinSp r.1, r.2)

/-- `summarize_text` after the initialization check (lines 213–243):
a document within `MAX_SUMMARIZATION_TOKENS` is first attempted as a
single whole-document call; a truthy result is returned, otherwise
(and for longer documents) the chunked path runs.  The second
component records every summarizer invocation in order. -/
def summarize_text (tok : PyStr → Nat) (summ : Summarizer) (text : PyStr) :
    PyStr × List SummCall :=
  if tok text ≤ MAX_SUMMARIZATION_TOKENS then
    let r := safe_summarize tok summ text MAX_SUMMARY_LENGTH MIN_SUMMARY_LENGTH
    match r.1 with
    | some s =>
      if s = [] then
        let c := chunkedPath tok summ text
        (c.1, r.2 ++ c.2)
      else (s, r.2)
    | none =>
      let c := chunkedPath tok summ text
      (c.1, r.2 ++ c.2)
  else chunkedPath tok summ text

/-- `summarize_text` including the initialization check (lines
210–211): a missing summarizer raises `ValueError` before anything
else. -/
def summarize_text_checked (tok : PyStr → Nat) (summOpt : Option Summarizer)
    (text : PyStr) : Except PyStr (PyStr × List SummCall) :=
  match summOpt with
  | none => Except.error "Summarizer not initialized".data
  | some summ => Except.ok (summarize_text tok summ text)

/-! ## Classification facade (`_map_to_urdu_category`, `classify_text`,
`_truncate_text_to_tokens`, lines 73–115) -/

/-- The external classification capability: returns the predicted
label (or raises, modelled by `Except.error`). -/
abbrev Classifier := PyStr → Except PyStr PyStr

/-- Python `str.lower()` (ASCII fragment, sufficient for the model
labels matched here). -/
def toLowerStr (s : PyStr) : PyStr := s.map Char.toLower

/-- Python's substring test `needle in hay`. -/
def containsSub (needle : PyStr) : PyStr → Bool
  | [] => needle.isPrefixOf []
  | c :: cs => needle.isPrefixOf (c :: cs) || containsSub needle cs

/-- `'kw' in label` after `label = str(label).lower()`. -/
def hasKw (kw : String) (label : PyStr) : Bool :=
  containsSub kw.data (toLowerStr label)

/-- `_map_to_urdu_category` (lines 73–93). -/
def map_to_urdu_category (label : PyStr) : PyStr :=
  let l := toLowerStr label
  if containsSub "sport".data l then "کھیل".data
  else if containsSub "tech".data l then "ٹیکنالوجی".data
  else if containsSub "polit".data l then "سیاست".data
  else if containsSub "health".data l then "صحت".data
  else if containsSub "science".data l then "سائنس".data
  else if containsSub "world".data l then "عالمی".data
  else if containsSub "art".data l || containsSub "culture".data l then "فن و ثقافت".data
  else if containsSub "business".data l then "کاروبار".data
  else "دیگر".data

/-- `_truncate_text_to_tokens` (lines 95–102), over the external
`tokenize` and `convert_tokens_to_string` capabilities. -/
def truncate_text_to_tokens (tokenize : PyStr → List PyStr)
    (convert : List PyStr → PyStr) (text : PyStr) (maxTokens : Nat) : PyStr :=
  let tokens := tokenize text
  if tokens.length ≤ maxTokens then text
  else convert (tokens.take maxTokens)

/-- `classify_text` (lines 104–115): a missing classifier raises
`ValueError`; otherwise the text is truncated to
`MAX_CLASSIFICATION_TOKENS` and classified, an exception from the
capability being caught and mapped to the catch-all category. -/
def classify_text (tokenize : PyStr → List PyStr) (convert : List PyStr → PyStr)
    (clfOpt : Option Classifier) (text : PyStr) : Except PyStr PyStr :=
  match clfOpt with
  | none => Except.error "Classifier not initialized".data
  | some clf =>
    match clf (truncate_text_to_tokens tokenize convert text MAX_CLASSIFICATION_TOKENS) with
    | Except.ok label => Except.ok (map_to_urdu_category label)
    | Except.error _ => Except.ok "دیگر".data

/-! ## Packer lemmas -/

/-- All units held by a pack state, emitted chunks first, accumulator last. -/
def unitsOf (st : PackState) : List PyStr :=
  concatAll st.chunks ++ st.cur

/-- The packing budget invariant for a single chunk: non-empty, and
either within budget or a single oversized unit. -/
def chunkOk (tok : PyStr → Nat) (c : List PyStr) : Prop :=
  c ≠ [] ∧ (sumTok tok c ≤ MAX_SUMMARIZATION_TOKENS ∨
    ∃ u, c = [u] ∧ tok u > MAX_SUMMARIZATION_TOKENS)

/-- The loop invariant of the accumulation loop. -/
def stateOk (tok : PyStr → Nat) (st : PackState) : Prop :=
  (∀ c ∈ st.chunks, chunkOk tok c) ∧
  st.curLen = sumTok tok st.cur ∧
  (st.cur ≠ [] → sumTok tok st.cur ≤ MAX_SUMMARIZATION_TOKENS ∨
    ∃ u, st.cur = [u] ∧ tok u > MAX_SUMMARIZATION_TOKENS)

theorem concatAll_append (xs ys : List (List α)) :
    concatAll (xs ++ ys) = concatAll xs ++ concatAll ys := by
  induction xs with
  | nil => simp [concatAll]
  | cons l ls ih => simp [concatAll, ih]

theorem sumTok_append (tok : PyStr → Nat) (a b : List PyStr) :
    sumTok tok (a ++ b) = sumTok tok a + sumTok tok b := by
  simp [sumTok]

theorem placeUnit_units (tok : PyStr → Nat) (st : PackState) (u : PyStr) :
    unitsOf (placeUnit tok st u) = unitsOf st ++ [u] := by
  unfold placeUnit unitsOf
  by_cases h : st.curLen + tok u > MAX_SUMMARIZATION_TOKENS
  · by_cases hc : st.cur = [] <;>
      simp [h, hc, concatAll_append, concatAll]
  · simp [h]

theorem foldl_placeUnit_units (tok : PyStr → Nat) (us : List PyStr) :
    ∀ st, unitsOf (us.foldl (placeUnit tok) st) = unitsOf st ++ us := by
  induction us with
  | nil => simp
  | cons u us ih =>
    intro st
    simp [List.foldl_cons, ih, placeUnit_units]

theorem placePara_units (tok : PyStr → Nat) (st : PackState) (p : PyStr) :
    unitsOf (placePara tok st p) =
      unitsOf st ++ (if tok p > MAX_SUMMARIZATION_TOKENS then splitSentences p else [p]) := by
  unfold placePara
  by_cases h : tok p > MAX_SUMMARIZATION_TOKENS
  · simp [h, foldl_placeUnit_units]
  · simp [h, placeUnit_units]

theorem foldl_placePara_units (tok : PyStr → Nat) (ps : List PyStr) :
    ∀ st, unitsOf (ps.foldl (placePara tok) st) =
      unitsOf st ++ concatAll (ps.map (fun p =>
        if tok p > MAX_SUMMARIZATION_TOKENS then splitSentences p else [p])) := by
  induction ps with
  | nil => simp [concatAll]
  | cons p ps ih =>
    intro st
    simp [List.foldl_cons, ih, placePara_units, concatAll]

theorem flushChunks_concat (st : PackState) :
    concatAll (flushChunks st) = unitsOf st := by
  unfold flushChunks unitsOf
  by_cases hc : st.cur = [] <;>
    simp [hc, concatAll_append, concatAll]

theorem chunkUnits_flatten (tok : PyStr → Nat) (text : PyStr) :
    concatAll (chunkUnits tok text) = structuralUnits tok text := by
  unfold chunkUnits structuralUnits
  by_cases h : (splitParagraphs text).length > 1
  · simp only [h, if_true]
    rw [flushChunks_concat, foldl_placePara_units]
    simp [unitsOf, initPack, concatAll]
  · simp only [h, if_false]
    rw [flushChunks_concat, foldl_placeUnit_units]
    simp [unitsOf, initPack, concatAll]

theorem placeUnit_ok (tok : PyStr → Nat) (st : PackState) (u : PyStr)
    (h : stateOk tok st) : stateOk tok (placeUnit tok st u) := by
  obtain ⟨hch, hlen, hcur⟩ := h
  unfold placeUnit
  by_cases hb : st.curLen + tok u > MAX_SUMMARIZATION_TOKENS
  · simp only [hb, if_true]
    refine ⟨?_, by simp [sumTok], ?_⟩
    · intro c hc
      rcases List.mem_append.mp hc with hc | hc
      · exact hch c hc
      · by_cases hnil : st.cur = []
        · simp [hnil] at hc
        · simp [hnil] at hc
          subst hc
          exact ⟨hnil, (hcur hnil)⟩
    · intro _
      by_cases hle : tok u ≤ MAX_SUMMARIZATION_TOKENS
      · exact Or.inl (by simp [sumTok, hle])
      · exact Or.inr ⟨u, rfl, by omega⟩
  · simp only [hb, if_false]
    refine ⟨hch, ?_, ?_⟩
    · show st.curLen + tok u = sumTok tok (st.cur ++ [u])
      rw [sumTok_append]
      simp [sumTok, hlen]
    · show st.cur ++ [u] ≠ [] → _
      intro _
      left
      show sumTok tok (st.cur ++ [u]) ≤ MAX_SUMMARIZATION_TOKENS
      have h1 : sumTok tok (st.cur ++ [u]) = sumTok tok st.cur + tok u := by
        rw [sumTok_append]; simp [sumTok]
      omega

theorem foldl_placeUnit_ok (tok : PyStr → Nat) (us : List PyStr) :
    ∀ st, stateOk tok st → stateOk tok (us.foldl (placeUnit tok) st) := by
  induction us with
  | nil => intro st h; simpa using h
  | cons u us ih =>
    intro st h
    exact ih _ (placeUnit_ok tok st u h)

theorem placePara_ok (tok : PyStr → Nat) (st : PackState) (p : PyStr)
    (h : stateOk tok st) : stateOk tok (placePara tok st p) := by
  unfold placePara
  by_cases hb : tok p > MAX_SUMMARIZATION_TOKENS
  · simp only [hb, if_true]
    exact foldl_placeUnit_ok tok _ st h
  · simp only [hb, if_false]
    exact placeUnit_ok tok st p h

theorem foldl_placePara_ok (tok : PyStr → Nat) (ps : List PyStr) :
    ∀ st, stateOk tok st → stateOk tok (ps.foldl (placePara tok) st) := by
  induction ps with
  | nil => intro st h; simpa using h
  | cons p ps ih =>
    intro st h
    exact ih _ (placePara_ok tok st p h)

theorem initPack_ok (tok : PyStr → Nat) : stateOk tok initPack := by
  refine ⟨by simp [initPack], by simp [initPack, sumTok], by simp [initPack]⟩

theorem flushChunks_ok (tok : PyStr → Nat) (st : PackState)
    (h : stateOk tok st) : ∀ c ∈ flushChunks st, chunkOk tok c := by
  obtain ⟨hch, hlen, hcur⟩ := h
  intro c hc
  unfold flushChunks at hc
  rcases List.mem_append.mp hc with hc | hc
  · exact hch c hc
  · by_cases hnil : st.cur = []
    · simp [hnil] at hc
    · simp [hnil] at hc
      subst hc
      exact ⟨hnil, hcur hnil⟩

theorem chunkUnits_ok (tok : PyStr → Nat) (text : PyStr) :
    ∀ c ∈ chunkUnits tok text, chunkOk tok c := by
  unfold chunkUnits
  by_cases h : (splitParagraphs text).length > 1
  · simp only [h, if_true]
    exact flushChunks_ok tok _ (foldl_placePara_ok tok _ _ (initPack_ok tok))
  · simp only [h, if_false]
    exact flushChunks_ok tok _ (foldl_placeUnit_ok tok _ _ (initPack_ok tok))

/-! ## Splitter reconstruction lemmas -/

/-- Separator well-formedness: non-empty and all whitespace. -/
def sepsOk (l : List PyStr) : Prop :=
  ∀ s ∈ l, s ≠ [] ∧ ∀ ch ∈ s, isPySpace ch = true

theorem takeWhile_pred (p : α → Bool) (l : List α) :
    ∀ x ∈ l.takeWhile p, p x = true := by
  induction l with
  | nil => simp [List.takeWhile]
  | cons a as ih =>
    intro x hx
    rw [List.takeWhile_cons] at hx
    by_cases hp : p a
    · simp [hp] at hx
      rcases hx with hx | hx
      · subst hx; exact hp
      · exact ih x hx
    · simp [hp] at hx

theorem splitAtLastNewline_eq : ∀ (l a b : List Char),
    splitAtLastNewline l = some (a, b) → l = a ++ '\n' :: b := by
  intro l
  induction l with
  | nil => intro a b h; simp [splitAtLastNewline] at h
  | cons c cs ih =>
    intro a b h
    rw [splitAtLastNewline] at h
    cases hs : splitAtLastNewline cs with
    | some p =>
      obtain ⟨a', b'⟩ := p
      rw [hs] at h
      simp at h
      obtain ⟨ha, hb⟩ := h
      subst ha; subst hb
      rw [List.cons_append]
      rw [← ih a' b' hs]
    | none =>
      rw [hs] at h
      by_cases hc : c = '\n'
      · simp [hc] at h
        obtain ⟨ha, hb⟩ := h
        subst ha; subst hb
        simp [hc]
      · simp [hc] at h

theorem sentBoundary_space (prev : List Char) (c : Char)
    (h : sentBoundary prev c = true) : isPySpace c = true := by
  unfold sentBoundary at h
  repeat rw [Bool.and_eq_true] at h
  exact h.1.1.1

theorem sentGo_spec : ∀ (cs prev acc : List Char),
    (sentGo prev acc cs).1 ≠ [] ∧
    ((sentGo prev acc cs).2).length + 1 = ((sentGo prev acc cs).1).length ∧
    sepsOk (sentGo prev acc cs).2 ∧
    joinWithSeps (sentGo prev acc cs).1 (sentGo prev acc cs).2 = acc.reverse ++ cs := by
  intro cs
  induction cs with
  | nil =>
    intro prev acc
    simp [sentGo, joinWithSeps, sepsOk]
  | cons c rest ih =>
    intro prev acc
    by_cases hb : sentBoundary prev c
    · have hunf : sentGo prev acc (c :: rest) =
          (acc.reverse :: (sentGo (c :: prev.take 3) [] rest).1,
           [c] :: (sentGo (c :: prev.take 3) [] rest).2) := by
        simp [sentGo, hb]
      rw [hunf]
      obtain ⟨i1, i2, i3, i4⟩ := ih (c :: prev.take 3) []
      refine ⟨by simp, by simp [← i2], ?_, ?_⟩
      · intro s hs
        rcases List.mem_cons.mp hs with hs | hs
        · subst hs
          refine ⟨by simp, ?_⟩
          intro ch hch
          simp at hch
          subst hch
          exact sentBoundary_space _ _ hb
        · exact i3 s hs
      · simp only [joinWithSeps]
        rw [i4]
        simp
    · have hunf : sentGo prev acc (c :: rest) =
          sentGo (c :: prev.take 3) (c :: acc) rest := by
        simp [sentGo, hb]
      rw [hunf]
      obtain ⟨i1, i2, i3, i4⟩ := ih (c :: prev.take 3) (c :: acc)
      refine ⟨i1, i2, i3, ?_⟩
      rw [i4]
      simp

theorem paraGoF_spec : ∀ (fuel : Nat) (cs : List Char), cs.length ≤ fuel → ∀ (acc : List Char),
    (paraGoF fuel acc cs).1 ≠ [] ∧
    ((paraGoF fuel acc cs).2).length + 1 = ((paraGoF fuel acc cs).1).length ∧
    sepsOk (paraGoF fuel acc cs).2 ∧
    joinWithSeps (paraGoF fuel acc cs).1 (paraGoF fuel acc cs).2 = acc.reverse ++ cs := by
  intro fuel
  induction fuel with
  | zero =>
    intro cs _ acc
    simp [paraGoF, joinWithSeps, sepsOk]
  | succ fuel ih =>
    intro cs hcs acc
    cases cs with
    | nil => simp [paraGoF, joinWithSeps, sepsOk]
    | cons c rest =>
      by_cases hc : c = '\n'
      · subst hc
        cases hs : splitAtLastNewline (rest.takeWhile isPySpace) with
        | none =>
          have hunf : paraGoF (fuel + 1) acc ('\n' :: rest) =
              paraGoF fuel ('\n' :: acc) rest := by
            simp [paraGoF, hs]
          rw [hunf]
          have hlen : rest.length ≤ fuel := by
            simp at hcs; omega
          obtain ⟨i1, i2, i3, i4⟩ := ih rest hlen ('\n' :: acc)
          refine ⟨i1, i2, i3, ?_⟩
          rw [i4]
          simp
        | some p =>
          obtain ⟨a, b⟩ := p
          have heq := splitAtLastNewline_eq _ a b hs
          have hsplit : rest.takeWhile isPySpace ++ rest.dropWhile isPySpace = rest :=
            List.takeWhile_append_dropWhile isPySpace rest
          have h1 : (rest.takeWhile isPySpace).length = a.length + 1 + b.length := by
            rw [heq]
            simp only [List.length_append, List.length_cons]
            omega
          have h2 : (rest.takeWhile isPySpace).length + (rest.dropWhile isPySpace).length
              = rest.length := by
            rw [← List.length_append, hsplit]
          have h3 : rest.length + 1 ≤ fuel + 1 := by simpa using hcs
          have hlen2 : (b ++ rest.dropWhile isPySpace).length ≤ fuel := by
            simp only [List.length_append]
            omega
          have hunf : paraGoF (fuel + 1) acc ('\n' :: rest) =
              (acc.reverse :: (paraGoF fuel [] (b ++ rest.dropWhile isPySpace)).1,
               ('\n' :: (a ++ ['\n'])) :: (paraGoF fuel [] (b ++ rest.dropWhile isPySpace)).2) := by
            simp [paraGoF, hs]
          rw [hunf]
          obtain ⟨i1, i2, i3, i4⟩ := ih _ hlen2 []
          refine ⟨by simp, by simp [← i2], ?_, ?_⟩
          · intro s hsm
            rcases List.mem_cons.mp hsm with hsm | hsm
            · subst hsm
              refine ⟨by simp, ?_⟩
              intro ch hch
              simp at hch
              rcases hch with hch | hch | hch
              · subst hch; decide
              · have hmem : ch ∈ rest.takeWhile isPySpace := by
                  rw [heq]
                  exact List.mem_append.mpr (Or.inl hch)
                exact takeWhile_pred isPySpace rest ch hmem
              · subst hch; decide
            · exact i3 s hsm
          · simp only [joinWithSeps]
            rw [i4]
            have hrest : rest = a ++ '\n' :: (b ++ rest.dropWhile isPySpace) := by
              conv_lhs => rw [← hsplit, heq]
              simp
            conv_rhs => rw [hrest]
            simp
      · have hunf : paraGoF (fuel + 1) acc (c :: rest) =
            paraGoF fuel (c :: acc) rest := by
          simp [paraGoF, hc]
        rw [hunf]
        have hlen : rest.length ≤ fuel := by
          simp at hcs; omega
        obtain ⟨i1, i2, i3, i4⟩ := ih rest hlen (c :: acc)
        refine ⟨i1, i2, i3, ?_⟩
        rw [i4]
        simp

theorem joinWithSeps_append : ∀ (us ss : List PyStr), ss.length + 1 = us.length →
    ∀ (vs ts : List PyStr) (s : PyStr),
    joinWithSeps (us ++ vs) (ss ++ s :: ts) = joinWithSeps us ss ++ s ++ joinWithSeps vs ts := by
  intro us
  induction us with
  | nil => intro ss h; simp at h
  | cons u us ih =>
    intro ss h vs ts s
    cases us with
    | nil =>
      have : ss = [] := List.length_eq_zero.mp (by simpa using h)
      subst this
      cases vs with
      | nil => simp [joinWithSeps]
      | cons v vs => simp [joinWithSeps]
    | cons u2 us2 =>
      cases ss with
      | nil => simp at h
      | cons s0 ss' =>
        have hlen : ss'.length + 1 = (u2 :: us2).length := by simpa using h
        have ht := ih ss' hlen vs ts s
        have e1 : joinWithSeps ((u :: u2 :: us2) ++ vs) ((s0 :: ss') ++ s :: ts) =
            u ++ s0 ++ joinWithSeps (u2 :: (us2 ++ vs)) (ss' ++ s :: ts) := rfl
        rw [e1]
        have ht2 : joinWithSeps (u2 :: (us2 ++ vs)) (ss' ++ s :: ts) =
            joinWithSeps (u2 :: us2) ss' ++ s ++ joinWithSeps vs ts := ht
        rw [ht2]
        have e2 : joinWithSeps (u :: u2 :: us2) (s0 :: ss') =
            u ++ s0 ++ joinWithSeps (u2 :: us2) ss' := rfl
        rw [e2]
        simp

theorem concatAll_ne (L : List (List α)) (h0 : L ≠ []) (h : ∀ c ∈ L, c ≠ []) :
    concatAll L ≠ [] := by
  cases L with
  | nil => exact absurd rfl h0
  | cons c ls =>
    have hc := h c (List.mem_cons_self c ls)
    cases c with
    | nil => exact absurd rfl hc
    | cons x xs => simp [concatAll]

theorem joinWithSeps_expand (eU eS : PyStr → List PyStr) :
    ∀ (ps ss : List PyStr), ss.length + 1 = ps.length →
    (∀ p ∈ ps, eU p ≠ [] ∧ (eS p).length + 1 = (eU p).length ∧
      joinWithSeps (eU p) (eS p) = p ∧ sepsOk (eS p)) →
    sepsOk ss →
    ∃ cs : List PyStr,
      cs.length + 1 = (concatAll (ps.map eU)).length ∧
      sepsOk cs ∧
      joinWithSeps (concatAll (ps.map eU)) cs = joinWithSeps ps ss := by
  intro ps
  induction ps with
  | nil => intro ss h; simp at h
  | cons p ps ih =>
    intro ss hlen hunit hss
    obtain ⟨hU, hl, hj, hsp⟩ := hunit p (List.mem_cons_self p ps)
    cases ps with
    | nil =>
      have : ss = [] := List.length_eq_zero.mp (by simpa using hlen)
      subst this
      refine ⟨eS p, ?_, hsp, ?_⟩
      · simp [concatAll, hl]
      · have hc : concatAll ([p].map eU) = eU p := by simp [concatAll]
        rw [hc, hj]
        cases hps : eU p with
        | nil => exact absurd hps hU
        | cons u us => simp [joinWithSeps]
    | cons q ps' =>
      cases ss with
      | nil => simp at hlen
      | cons s ss' =>
        have hlen' : ss'.length + 1 = (q :: ps').length := by simpa using hlen
        have hunit' : ∀ r ∈ q :: ps', eU r ≠ [] ∧ (eS r).length + 1 = (eU r).length ∧
            joinWithSeps (eU r) (eS r) = r ∧ sepsOk (eS r) := by
          intro r hr
          exact hunit r (List.mem_cons_of_mem p hr)
        have hss' : sepsOk ss' := by
          intro x hx
          exact hss x (List.mem_cons_of_mem s hx)
        obtain ⟨cs', hcl, hcs, hcj⟩ := ih ss' hlen' hunit' hss'
        refine ⟨eS p ++ s :: cs', ?_, ?_, ?_⟩
        · simp only [List.map_cons, concatAll, List.length_append, List.length_cons] at hcl ⊢
          omega
        · intro x hx
          rcases List.mem_append.mp hx with hx | hx
          · exact hsp x hx
          · rcases List.mem_cons.mp hx with hx | hx
            · subst hx
              exact hss x (List.mem_cons_self x ss')
            · exact hcs x hx
        · have hmap : concatAll ((p :: q :: ps').map eU) = eU p ++ concatAll ((q :: ps').map eU) := by
            simp [concatAll]
          rw [hmap]
          rw [joinWithSeps_append (eU p) (eS p) hl _ cs' s]
          rw [hj, hcj]
          simp [joinWithSeps]

/-! ## Space-join lemmas -/

theorem joinSp_append : ∀ (a b : List PyStr), a ≠ [] → b ≠ [] →
    joinSp (a ++ b) = joinSp a ++ ' ' :: joinSp b := by
  intro a
  induction a with
  | nil => intro b h; exact absurd rfl h
  | cons x a ih =>
    intro b _ hb
    cases a with
    | nil =>
      cases b with
      | nil => exact absurd rfl hb
      | cons y bs => simp [joinSp]
    | cons x2 a2 =>
      have ht := ih b (by simp) hb
      have e1 : joinSp ((x :: x2 :: a2) ++ b) = x ++ ' ' :: joinSp ((x2 :: a2) ++ b) := rfl
      have e2 : joinSp (x :: x2 :: a2) = x ++ ' ' :: joinSp (x2 :: a2) := rfl
      rw [e1, e2, ht]
      simp

theorem joinSp_concatAll : ∀ (L : List (List PyStr)), (∀ c ∈ L, c ≠ []) →
    joinSp (L.map joinSp) = joinSp (concatAll L) := by
  intro L
  induction L with
  | nil => simp [concatAll]
  | cons c ls ih =>
    intro h
    cases ls with
    | nil => simp [concatAll, joinSp]
    | cons d ls' =>
      have hc : c ≠ [] := h c (List.mem_cons_self c _)
      have hrest : ∀ x ∈ d :: ls', x ≠ [] := by
        intro x hx
        exact h x (List.mem_cons_of_mem c hx)
      have hconc : concatAll (d :: ls') ≠ [] :=
        concatAll_ne _ (by simp) hrest
      have hih := ih hrest
      simp only [List.map_cons, concatAll] at hih ⊢
      have hjs : joinSp (joinSp c :: joinSp d :: (ls'.map joinSp)) =
          joinSp c ++ ' ' :: joinSp (joinSp d :: (ls'.map joinSp)) := by
        simp [joinSp]
      rw [hjs, hih]
      have hconc2 : d ++ concatAll ls' ≠ [] := by
        simpa [concatAll] using hconc
      rw [joinSp_append c (d ++ concatAll ls') hc hconc2]

/-! ## Orchestrator loop lemmas -/

/-- The contribution of one valid chunk to `chunk_summaries`: the
summary when `_safe_summarize` yields a truthy (non-`None`, non-empty)
result, nothing otherwise. -/
def collectSummary (tok : PyStr → Nat) (summ : Summarizer) (n : Nat) (c : PyStr) : Option PyStr :=
  match (safe_summarize tok summ c (chunkMaxLength n) (chunkMinLength n)).1 with
  | some s => if s = [] then none else some s
  | none => none

theorem foldl_summStep_nil (tok : PyStr → Nat) (summ : Summarizer) (n : Nat) :
    ∀ (l : List PyStr) (acc : List PyStr × List SummCall),
    (∀ c ∈ l, (safe_summarize tok summ c (chunkMaxLength n) (chunkMinLength n)).1 = none) →
    (l.foldl (summStep tok summ n) acc).1 = acc.1 := by
  intro l
  induction l with
  | nil => intro acc _; rfl
  | cons c cs ih =>
    intro acc h
    have hc := h c (List.mem_cons_self c cs)
    have hstep : summStep tok summ n acc c =
        (acc.1, acc.2 ++ (safe_summarize tok summ c (chunkMaxLength n) (chunkMinLength n)).2) := by
      simp only [summStep, hc]
    rw [List.foldl_cons, hstep]
    exact ih _ (fun x hx => h x (List.mem_cons_of_mem c hx))

theorem foldl_summStep_filterMap (tok : PyStr → Nat) (summ : Summarizer) (n : Nat) :
    ∀ (l : List PyStr) (acc : List PyStr × List SummCall),
    (l.foldl (summStep tok summ n) acc).1 = acc.1 ++ l.filterMap (collectSummary tok summ n) := by
  intro l
  induction l with
  | nil => intro acc; simp
  | cons c cs ih =>
    intro acc
    rw [List.foldl_cons, List.filterMap_cons]
    cases hsc : (safe_summarize tok summ c (chunkMaxLength n) (chunkMinLength n)).1 with
    | none =>
      have hstep : summStep tok summ n acc c =
          (acc.1, acc.2 ++ (safe_summarize tok summ c (chunkMaxLength n) (chunkMinLength n)).2) := by
        simp only [summStep, hsc]
      rw [hstep, ih]
      simp [collectSummary, hsc]
    | some s =>
      by_cases hs : s = []
      · have hstep : summStep tok summ n acc c =
            (acc.1, acc.2 ++ (safe_summarize tok summ c (chunkMaxLength n) (chunkMinLength n)).2) := by
          simp only [summStep, hsc, hs, if_true]
        rw [hstep, ih]
        simp [collectSummary, hsc, hs]
      · have hstep : summStep tok summ n acc c =
            (acc.1 ++ [s], acc.2 ++ (safe_summarize tok summ c (chunkMaxLength n) (chunkMinLength n)).2) := by
          simp only [summStep, hsc, hs, if_false]
        rw [hstep, ih]
        simp [collectSummary, hsc, hs]

/-! ## Concrete instances used by witnesses and counterexamples -/

/-- A mock external token counter: one hundred tokens per character
(any `PyStr → Nat` function is an admissible instantiation of the
external tokenizer capability). -/
def tokHundred : PyStr → Nat := fun s => 100 * s.length

/-- Eight paragraphs of seven characters each: under `tokHundred` every
paragraph has 700 tokens, so the packer emits eight one-paragraph
chunks, all viable. -/
def eightParas : PyStr :=
  "aaaaaaa\n\naaaaaaa\n\naaaaaaa\n\naaaaaaa\n\naaaaaaa\n\naaaaaaa\n\naaaaaaa\n\naaaaaaa".data

/-! ## Claim theorems -/

/-- C1: for every token counter and input text, every chunk emitted by
the chunk packer either has an accumulated token count (the sum of the
token counts of the structural units placed in it) at most
`MAX_SUMMARIZATION_TOKENS`, or consists of exactly one structural unit
whose own token count exceeds `MAX_SUMMARIZATION_TOKENS`. -/
theorem C1_theorem (tok : PyStr → Nat) (text : PyStr) :
    ∀ c ∈ chunkUnits tok text,
      sumTok tok c ≤ MAX_SUMMARIZATION_TOKENS ∨
      ∃ u, c = [u] ∧ tok u > MAX_SUMMARIZATION_TOKENS := by
  intro c hc
  exact (chunkUnits_ok tok text c hc).2

/-- Witness for C1: on the document `"aa\n\nbbbb. cc"` with one hundred
tokens per character, the chunk holding `"aa"` and `"bbbb."` is emitted
and satisfies the budget disjunction. -/
theorem C1_witness :
    ["aa".data, "bbbb.".data] ∈ chunkUnits tokHundred "aa\n\nbbbb. cc".data ∧
    (sumTok tokHundred ["aa".data, "bbbb.".data] ≤ MAX_SUMMARIZATION_TOKENS ∨
     ∃ u, ["aa".data, "bbbb.".data] = [u] ∧ tokHundred u > MAX_SUMMARIZATION_TOKENS) :=
  ⟨by decide, C1_theorem tokHundred "aa\n\nbbbb. cc".data _ (by decide)⟩

/-- C5 (amended): a paragraph is re-split into sentences exactly when
its own token count exceeds `MAX_SUMMARIZATION_TOKENS`, regardless of
whether the accumulator is empty, and the resulting sentences are fed
into the same accumulator — so they can share a chunk with preceding
paragraphs held in a non-empty accumulator. -/
theorem C5_theorem (tok : PyStr → Nat) (st : PackState) (p : PyStr) :
    unitsOf (placePara tok st p) =
      unitsOf st ++ (if tok p > MAX_SUMMARIZATION_TOKENS then splitSentences p else [p]) :=
  placePara_units tok st p

/-- Counterexample to C5 as stated: in `"aa\n\nbbbb. cc"` with one
hundred tokens per character, the second paragraph (800 tokens)
overflows and is re-split while the accumulator already holds the
first paragraph, and its first sentence `"bbbb."` is packed into the
same chunk as the preceding paragraph `"aa"`. -/
theorem C5_counterexample :
    splitParagraphs "aa\n\nbbbb. cc".data = ["aa".data, "bbbb. cc".data] ∧
    tokHundred "bbbb. cc".data > MAX_SUMMARIZATION_TOKENS ∧
    splitSentences "bbbb. cc".data = ["bbbb.".data, "cc".data] ∧
    chunkUnits tokHundred "aa\n\nbbbb. cc".data =
      [["aa".data, "bbbb.".data], ["cc".data]] := by
  decide

/-- C4: for every token counter and input text, the chunks partition
the structural units in order (every unit is placed in exactly one
chunk), the chunk texts joined by single spaces coincide with the
units joined by single spaces, and the units interleaved with the
whitespace separators removed by the splitter reconstruct the original
document exactly — i.e. concatenating the chunks reproduces the
document up to whitespace normalization at unit boundaries. -/
theorem C4_theorem (tok : PyStr → Nat) (text : PyStr) :
    concatAll (chunkUnits tok text) = structuralUnits tok text ∧
    joinSp (chunk_text_for_summarization tok text) = joinSp (structuralUnits tok text) ∧
    ∃ seps : List PyStr,
      seps.length + 1 = (structuralUnits tok text).length ∧
      sepsOk seps ∧
      joinWithSeps (structuralUnits tok text) seps = text := by
  refine ⟨chunkUnits_flatten tok text, ?_, ?_⟩
  · have h2 : ∀ c ∈ chunkUnits tok text, c ≠ [] :=
      fun c hc => (chunkUnits_ok tok text c hc).1
    unfold chunk_text_for_summarization
    rw [joinSp_concatAll _ h2, chunkUnits_flatten]
  · by_cases hp : (splitParagraphs text).length > 1
    · obtain ⟨p1, p2, p3, p4⟩ := paraGoF_spec text.length text le_rfl []
      have e1 : splitParagraphs text = (paraGoF text.length [] text).1 := rfl
      have e2 : (splitParagraphsSeps text).2 = (paraGoF text.length [] text).2 := rfl
      have hunit : ∀ p ∈ splitParagraphs text,
          (if tok p > MAX_SUMMARIZATION_TOKENS then splitSentences p else [p]) ≠ [] ∧
          (if tok p > MAX_SUMMARIZATION_TOKENS then (splitSentencesSeps p).2 else []).length + 1 =
            (if tok p > MAX_SUMMARIZATION_TOKENS then splitSentences p else [p]).length ∧
          joinWithSeps (if tok p > MAX_SUMMARIZATION_TOKENS then splitSentences p else [p])
            (if tok p > MAX_SUMMARIZATION_TOKENS then (splitSentencesSeps p).2 else []) = p ∧
          sepsOk (if tok p > MAX_SUMMARIZATION_TOKENS then (splitSentencesSeps p).2 else []) := by
        intro p _
        by_cases ht : tok p > MAX_SUMMARIZATION_TOKENS
        · obtain ⟨s1, s2, s3, s4⟩ := sentGo_spec p [] []
          simp only [ht, if_true]
          exact ⟨s1, s2, by simpa using s4, s3⟩
        · simp only [ht, if_false]
          refine ⟨by simp, by simp, ?_, by simp [sepsOk]⟩
          simp [joinWithSeps]
      obtain ⟨cs, hc1, hc2, hc3⟩ := joinWithSeps_expand
        (fun p => if tok p > MAX_SUMMARIZATION_TOKENS then splitSentences p else [p])
        (fun p => if tok p > MAX_SUMMARIZATION_TOKENS then (splitSentencesSeps p).2 else [])
        (splitParagraphs text) (splitParagraphsSeps text).2
        (by rw [e1, e2]; exact p2) hunit (by rw [e2]; exact p3)
      refine ⟨cs, ?_, hc2, ?_⟩
      · have hs : structuralUnits tok text =
            concatAll ((splitParagraphs text).map
              (fun p => if tok p > MAX_SUMMARIZATION_TOKENS then splitSentences p else [p])) := by
          simp only [structuralUnits, hp, if_true]
        rw [hs]
        exact hc1
      · have hs : structuralUnits tok text =
            concatAll ((splitParagraphs text).map
              (fun p => if tok p > MAX_SUMMARIZATION_TOKENS then splitSentences p else [p])) := by
          simp only [structuralUnits, hp, if_true]
        rw [hs, hc3]
        have p4' : joinWithSeps (splitParagraphs text) (splitParagraphsSeps text).2 =
            [].reverse ++ text := by
          rw [e1, e2]; exact p4
        simpa using p4'
    · obtain ⟨s1, s2, s3, s4⟩ := sentGo_spec text [] []
      have hs : structuralUnits tok text = splitSentences text := by
        simp only [structuralUnits, hp, if_false]
      refine ⟨(splitSentencesSeps text).2, ?_, s3, ?_⟩
      · rw [hs]
        exact s2
      · rw [hs]
        simpa using s4

/-- C2 (amended): for a document whose token count is at most
`MAX_SUMMARIZATION_TOKENS` and at least `MIN_CHUNK_LENGTH`, if the
single whole-document summarization call returns a non-empty summary,
then `summarize_text` returns that summary having performed exactly
that one call, with the full document text; the chunked path is not
entered.  (When the attempt yields nothing, the code falls through to
the chunked path — see the counterexample.) -/
theorem C2_theorem (tok : PyStr → Nat) (summ : Summarizer) (text : PyStr) (s : PyStr)
    (h1 : tok text ≤ MAX_SUMMARIZATION_TOKENS)
    (h2 : MIN_CHUNK_LENGTH ≤ tok text)
    (h3 : summ text (clampedMax MAX_SUMMARY_LENGTH (tok text : Int))
            (finalActualMin MIN_SUMMARY_LENGTH MAX_SUMMARY_LENGTH (tok text : Int))
          = Except.ok s)
    (h4 : s ≠ []) :
    summarize_text tok summ text =
      (s, [⟨text, clampedMax MAX_SUMMARY_LENGTH (tok text : Int),
            finalActualMin MIN_SUMMARY_LENGTH MAX_SUMMARY_LENGTH (tok text : Int)⟩]) := by
  have hn : ¬ (tok text < MIN_CHUNK_LENGTH) := by omega
  simp [summarize_text, safe_summarize, hn, h1, h3, h4]

set_option maxRecDepth 20000 in
/-- Witness for C2: a 200-character document with one token per
character and a succeeding summarizer yields exactly one call on the
full text. -/
theorem C2_witness :
    summarize_text List.length (fun _ _ _ => Except.ok ['S']) (List.replicate 200 'a') =
      (['S'], [⟨List.replicate 200 'a',
        clampedMax MAX_SUMMARY_LENGTH ((List.length (List.replicate 200 'a') : Nat) : Int),
        finalActualMin MIN_SUMMARY_LENGTH MAX_SUMMARY_LENGTH
          ((List.length (List.replicate 200 'a') : Nat) : Int)⟩]) :=
  C2_theorem _ _ _ _ (by decide) (by decide) rfl (by decide)

/-- Counterexample to C2 as stated: the two-character document `"ab"`
has 2 ≤ 768 tokens under the length tokenizer, yet `summarize_text`
performs zero summarization calls (not one) and invokes the chunking
path, returning the chunked path's too-short placeholder — because the
whole-document attempt returns `None` for texts below
`MIN_CHUNK_LENGTH` and the code falls through to chunking. -/
theorem C2_counterexample :
    List.length "ab".data ≤ MAX_SUMMARIZATION_TOKENS ∧
    summarize_text List.length (fun _ _ _ => Except.ok "S".data) "ab".data
      = (NO_SUMMARY_SHORT, []) := by
  decide

/-- C3 (amended): for every chunk count between 1 and 7 the per-chunk
summary budget satisfies `minLength < maxLength` and `maxLength > 0`;
for larger chunk counts the allocation degenerates (at 8 chunks both
bounds equal 15). -/
theorem C3_theorem (n : Nat) (h1 : 1 ≤ n) (h2 : n ≤ 7) :
    chunkMinLength n < chunkMaxLength n ∧ 0 < chunkMaxLength n := by
  interval_cases n <;> decide

/-- Witness for C3: the budget for 3 chunks is sane. -/
theorem C3_witness :
    1 ≤ 3 ∧ 3 ≤ 7 ∧ (chunkMinLength 3 < chunkMaxLength 3 ∧ 0 < chunkMaxLength 3) :=
  ⟨by decide, by decide, C3_theorem 3 (by decide) (by decide)⟩

/-- Counterexample to C3 as stated: a chunk count of 8 is reachable
(eight 700-token paragraphs yield eight viable chunks), and at 8
chunks the allocated budget is `min = max = 15`, violating
`minLength < maxLength`. -/
theorem C3_counterexample :
    (validChunks tokHundred eightParas).length = 8 ∧
    ¬ (chunkMinLength 8 < chunkMaxLength 8 ∧ 0 < chunkMaxLength 8) := by
  decide

/-- C6 (amended): over Python integers the clamp
`actual_min = min(min_length, actual_max - 1)` already guarantees
`actual_min < actual_max`, so the degenerate-reset branch
(`if actual_min >= actual_max`) can never fire and the `actual_min`
in force is always the clamped value — the reset to
`max(10, actual_max // 2)` is dead code. -/
theorem C6_theorem (minLength maxLength tokenCount : Int) :
    clampedMin minLength maxLength tokenCount < clampedMax maxLength tokenCount ∧
    finalActualMin minLength maxLength tokenCount =
      clampedMin minLength maxLength tokenCount := by
  have h : clampedMin minLength maxLength tokenCount ≤ clampedMax maxLength tokenCount - 1 :=
    min_le_right _ _
  refine ⟨by omega, ?_⟩
  unfold finalActualMin
  rw [if_neg]
  omega

/-- Counterexample to C6's implicit content: at `requestedMax = 5`,
`tokenCount = 150`, the guard `actual_min >= actual_max` is false (the
clamp already gives `4 < 5`), and the reset formula
`max(10, actual_max // 2) = 10` would not be `< actual_max = 5` — the
claimed rule is both unreachable and, at this input, would violate the
claimed strict inequality if it ever ran. -/
theorem C6_counterexample :
    clampedMin 25 5 150 < clampedMax 5 150 ∧
    ¬ (resetMin 5 150 < clampedMax 5 150) := by
  decide

/-- C7: on the chunked path, a document with no viable chunk yields the
too-short placeholder with no summarization call; a document with
viable chunks all of whose summarizations yield an absent result
yields the other placeholder; and the two placeholders are distinct. -/
theorem C7_theorem :
    (∀ (tok : PyStr → Nat) (summ : Summarizer) (text : PyStr),
       validChunks tok text = [] → chunkedPath tok summ text = (NO_SUMMARY_SHORT, [])) ∧
    (∀ (tok : PyStr → Nat) (summ : Summarizer) (text : PyStr),
       validChunks tok text ≠ [] →
       (∀ c ∈ validChunks tok text,
         (safe_summarize tok summ c (chunkMaxLength (validChunks tok text).length)
           (chunkMinLength (validChunks tok text).length)).1 = none) →
       (chunkedPath tok summ text).1 = NO_SUMMARY) ∧
    NO_SUMMARY_SHORT ≠ NO_SUMMARY := by
  refine ⟨?_, ?_, by decide⟩
  · intro tok summ text h
    simp [chunkedPath, h]
  · intro tok summ text hne hall
    have hl : (chunkLoop tok summ (validChunks tok text).length (validChunks tok text)).1
        = [] := by
      unfold chunkLoop
      exact foldl_summStep_nil tok summ _ (validChunks tok text) ([], []) hall
    simp [chunkedPath, hne, hl]

set_option maxRecDepth 20000 in
/-- Witness for C7: `"ab"` has no viable chunk and yields the
too-short placeholder with no call; a 200-character single-chunk
document with an always-raising summarizer yields the other
placeholder; the placeholders differ. -/
theorem C7_witness :
    chunkedPath List.length (fun _ _ _ => Except.error []) "ab".data = (NO_SUMMARY_SHORT, []) ∧
    (chunkedPath List.length (fun _ _ _ => Except.error []) (List.replicate 200 'a')).1
      = NO_SUMMARY ∧
    NO_SUMMARY_SHORT ≠ NO_SUMMARY :=
  ⟨C7_theorem.1 _ _ _ (by decide),
   C7_theorem.2.1 _ _ _ (by decide) (by decide),
   C7_theorem.2.2⟩

/-- C8: an exception from the external summarization capability makes
`_safe_summarize` return an absent result rather than propagate; and
the per-chunk loop treats every valid chunk independently — the
collected summaries are exactly the truthy results of the per-chunk
calls, so one failing chunk never prevents the remaining chunks from
being summarized. -/
theorem C8_theorem :
    (∀ (tok : PyStr → Nat) (summ : Summarizer) (t : PyStr) (maxLength minLength : Int)
       (e : PyStr),
       summ t (clampedMax maxLength (tok t : Int))
         (finalActualMin minLength maxLength (tok t : Int)) = Except.error e →
       (safe_summarize tok summ t maxLength minLength).1 = none) ∧
    (∀ (tok : PyStr → Nat) (summ : Summarizer) (n : Nat) (l : List PyStr),
       (chunkLoop tok summ n l).1 = l.filterMap (collectSummary tok summ n)) := by
  constructor
  · intro tok summ t maxL minL e h
    unfold safe_summarize
    by_cases hlt : tok t < MIN_CHUNK_LENGTH
    · simp [hlt]
    · simp [hlt, h]
  · intro tok summ n l
    unfold chunkLoop
    rw [foldl_summStep_filterMap]
    simp

/-- Witness for C8: a raising summarizer on a 200-character chunk
yields `None`, and the loop equation instantiated at that chunk. -/
theorem C8_witness :
    (safe_summarize List.length (fun _ _ _ => Except.error ['b'])
      (List.replicate 200 'a') 120 25).1 = none ∧
    (chunkLoop List.length (fun _ _ _ => Except.error ['b']) 1 [List.replicate 200 'a']).1 =
      List.filterMap (collectSummary List.length (fun _ _ _ => Except.error ['b']) 1)
        [List.replicate 200 'a'] :=
  ⟨C8_theorem.1 _ _ _ 120 25 ['b'] rfl, C8_theorem.2 _ _ 1 _⟩

/-- C9: the category mapping is case-insensitive substring matching
against the fixed keyword groups in priority order (`sport`, `tech`,
`polit`, `health`, `science`, `world`, `art`/`culture`, `business`),
a label matching no group maps to the catch-all tag, and an exception
raised by the classification capability makes `classify_text` return
the catch-all tag instead of propagating. -/
theorem C9_theorem :
    (∀ label : PyStr,
      (hasKw "sport" label = true → map_to_urdu_category label = "کھیل".data) ∧
      (hasKw "sport" label = false → hasKw "tech" label = true →
        map_to_urdu_category label = "ٹیکنالوجی".data) ∧
      (hasKw "sport" label = false → hasKw "tech" label = false →
        hasKw "polit" label = true → map_to_urdu_category label = "سیاست".data) ∧
      (hasKw "sport" label = false → hasKw "tech" label = false →
        hasKw "polit" label = false → hasKw "health" label = true →
        map_to_urdu_category label = "صحت".data) ∧
      (hasKw "sport" label = false → hasKw "tech" label = false →
        hasKw "polit" label = false → hasKw "health" label = false →
        hasKw "science" label = true → map_to_urdu_category label = "سائنس".data) ∧
      (hasKw "sport" label = false → hasKw "tech" label = false →
        hasKw "polit" label = false → hasKw "health" label = false →
        hasKw "science" label = false → hasKw "world" label = true →
        map_to_urdu_category label = "عالمی".data) ∧
      (hasKw "sport" label = false → hasKw "tech" label = false →
        hasKw "polit" label = false → hasKw "health" label = false →
        hasKw "science" label = false → hasKw "world" label = false →
        (hasKw "art" label = true ∨ hasKw "culture" label = true) →
        map_to_urdu_category label = "فن و ثقافت".data) ∧
      (hasKw "sport" label = false → hasKw "tech" label = false →
        hasKw "polit" label = false → hasKw "health" label = false →
        hasKw "science" label = false → hasKw "world" label = false →
        hasKw "art" label = false → hasKw "culture" label = false →
        hasKw "business" label = true → map_to_urdu_category label = "کاروبار".data) ∧
      (hasKw "sport" label = false → hasKw "tech" label = false →
        hasKw "polit" label = false → hasKw "health" label = false →
        hasKw "science" label = false → hasKw "world" label = false →
        hasKw "art" label = false → hasKw "culture" label = false →
        hasKw "business" label = false → map_to_urdu_category label = "دیگر".data)) ∧
    (∀ (tokenize : PyStr → List PyStr) (convert : List PyStr → PyStr) (clf : Classifier)
       (text e : PyStr),
      clf (truncate_text_to_tokens tokenize convert text MAX_CLASSIFICATION_TOKENS)
        = Except.error e →
      classify_text tokenize convert (some clf) text = Except.ok "دیگر".data) := by
  constructor
  · intro label
    refine ⟨?_, ?_, ?_, ?_, ?_, ?_, ?_, ?_, ?_⟩
    · intro h1
      unfold hasKw at h1
      simp [map_to_urdu_category, h1]
    · intro h1 h2
      unfold hasKw at h1 h2
      simp [map_to_urdu_category, h1, h2]
    · intro h1 h2 h3
      unfold hasKw at h1 h2 h3
      simp [map_to_urdu_category, h1, h2, h3]
    · intro h1 h2 h3 h4
      unfold hasKw at h1 h2 h3 h4
      simp [map_to_urdu_category, h1, h2, h3, h4]
    · intro h1 h2 h3 h4 h5
      unfold hasKw at h1 h2 h3 h4 h5
      simp [map_to_urdu_category, h1, h2, h3, h4, h5]
    · intro h1 h2 h3 h4 h5 h6
      unfold hasKw at h1 h2 h3 h4 h5 h6
      simp [map_to_urdu_category, h1, h2, h3, h4, h5, h6]
    · intro h1 h2 h3 h4 h5 h6 h7
      unfold hasKw at h1 h2 h3 h4 h5 h6
      rcases h7 with h7 | h7 <;>
        (unfold hasKw at h7; simp [map_to_urdu_category, h1, h2, h3, h4, h5, h6, h7])
    · intro h1 h2 h3 h4 h5 h6 h7 h8 h9
      unfold hasKw at h1 h2 h3 h4 h5 h6 h7 h8 h9
      simp [map_to_urdu_category, h1, h2, h3, h4, h5, h6, h7, h8, h9]
    · intro h1 h2 h3 h4 h5 h6 h7 h8 h9
      unfold hasKw at h1 h2 h3 h4 h5 h6 h7 h8 h9
      simp [map_to_urdu_category, h1, h2, h3, h4, h5, h6, h7, h8, h9]
  · intro tokenize convert clf text e h
    simp [classify_text, h]

/-- Witness for C9: `"SPORTS news"` (case-insensitively containing
`sport`) maps to the sports tag, and a raising classifier yields the
catch-all tag. -/
theorem C9_witness :
    map_to_urdu_category "SPORTS news".data = "کھیل".data ∧
    classify_text (fun _ => []) (fun _ => []) (some (fun _ => Except.error [])) "xyz".data =
      Except.ok "دیگر".data :=
  ⟨(C9_theorem.1 "SPORTS news".data).1 (by decide),
   C9_theorem.2 _ _ _ _ [] rfl⟩

/-- C10: with an uninitialized classifier, `classify_text` raises
`ValueError` whatever the external capabilities would do (so before
any tokenization or external call), and likewise `summarize_text`
with an uninitialized summarizer. -/
theorem C10_theorem :
    (∀ (tokenize : PyStr → List PyStr) (convert : List PyStr → PyStr) (text : PyStr),
      classify_text tokenize convert none text =
        Except.error "Classifier not initialized".data) ∧
    (∀ (tok : PyStr → Nat) (text : PyStr),
      summarize_text_checked tok none text =
        Except.error "Summarizer not initialized".data) := by
  exact ⟨fun _ _ _ => rfl, fun _ _ => rfl⟩
